import Mathlib

set_option maxHeartbeats 1000000
set_option linter.unusedVariables false

namespace TodoSpec

/-!
Shallow embedding of the two engineered mechanisms of the ToDo-List API
backend: the sliding-window rate limiter (src/middleware/ratelimit.go) and
the concurrent search worker pool (taskService.SearchTasks).

Instants and durations are integers (nanoseconds, matching Go time.Time and
time.Duration).  The registry map has type map from string to slice of
time.Time in Go; it is modelled as a total function from keys to lists of
instants, the empty list standing for an absent key: the Go code reads a
missing key as the nil slice, so the two are indistinguishable to it.
-/

/-- State of the RateLimiter struct (ratelimit.go lines 12-17): the request
limit, the window duration, and the per-key timestamp map. -/
structure RateLimiter where
  limit : Nat
  window : Int
  requests : String → List Int

/-- Pruning loop shared by Allow (lines 45-50) and cleanup (lines 75-80):
keep exactly the timestamps t with t.After(cutoff), that is cutoff < t. -/
def pruneOld (cutoff : Int) (ts : List Int) : List Int :=
  ts.filter (fun t => cutoff < t)

/-- Model of RateLimiter.Allow (ratelimit.go lines 34-62): compute
cutoff = now - window, filter the key's stored timestamps through the strict
After comparison, reject without writing when the surviving count reaches the
limit, otherwise append now and store the pruned-plus-new list. -/
def RateLimiter.Allow (rl : RateLimiter) (now : Int) (key : String) : Bool × RateLimiter :=
  let cutoff := now - rl.window
  let valid := pruneOld cutoff (rl.requests key)
  if rl.limit ≤ valid.length then
    (false, rl)
  else
    (true, { rl with requests := fun k => if k = key then valid ++ [now] else rl.requests k })

/-- The number of timestamps of a key that the pruning step of an Allow call
issued at instant now would retain: the in-window count at that instant. -/
def inWindowCount (rl : RateLimiter) (now : Int) (key : String) : Nat :=
  (pruneOld (now - rl.window) (rl.requests key)).length

/-- One pass of the background sweep, the body of the ticker loop in
RateLimiter.cleanup (ratelimit.go lines 70-88): every key's list is filtered
against cutoff = now - window*2; a key whose filtered list is empty is
deleted (in the total-function model, deletion and storing the empty list
coincide), otherwise the filtered list is stored. -/
def RateLimiter.cleanupPass (rl : RateLimiter) (now : Int) : RateLimiter :=
  { rl with requests := fun k => pruneOld (now - rl.window * 2) (rl.requests k) }

/-- Sequential execution of a list of Allow calls, each given as a pair of
key and instant; returns the list of boolean decisions in order. -/
def runAllow : RateLimiter → List (String × Int) → List Bool
  | _, [] => []
  | rl, (key, now) :: rest => (rl.Allow now key).1 :: runAllow (rl.Allow now key).2 rest

/-- Fields of the HTTP response produced on a denied request by
RateLimitMiddleware (ratelimit.go lines 100-108). -/
structure DenyResponse where
  status : Nat
  retryAfterHeader : String
  retryAfterBody : Int
  errorMessage : String

/-- Response built by RateLimitMiddleware when Allow returns false
(ratelimit.go lines 100-108): status 429, Retry-After header "60" and body
field retry_after 60, both hard-coded; the configured window is in scope in
the Go closure but is not consulted. -/
def denyResponse (window : Int) : DenyResponse :=
  { status := 429, retryAfterHeader := "60", retryAfterBody := 60,
    errorMessage := "Too many requests" }

/-- A Go time.Duration expressed in whole seconds (durations are modelled in
nanoseconds, so time.Minute is 60000000000). -/
def durationSeconds (d : Int) : Int :=
  d / 1000000000

/-- The fields of models.Task (models/models.go lines 58-70) that the search
pipeline and its filters argument refer to; pointer-typed Go fields become
Option. -/
structure Task where
  id : Int
  userID : Int
  taskName : String
  descriptionText : Option String
  category : Option String
  priority : Int
  isCompleted : Bool
deriving DecidableEq, Repr

/-- Lower-cased character sequence of a string, the model of Go
strings.ToLower applied before every containment test in SearchTasks. -/
def lowerChars (s : String) : List Char :=
  s.toList.map Char.toLower

/-- Whether the second character list starts the first one; the head-position
case of substring containment. -/
def leadsWith : List Char → List Char → Bool
  | [], _ => true
  | _ :: _, [] => false
  | a :: as, b :: bs => a == b && leadsWith as bs

/-- Whether the second character list occurs contiguously inside the first,
the model of Go strings.Contains. -/
def containsChars : List Char → List Char → Bool
  | [], nee => nee.isEmpty
  | c :: hs, nee => leadsWith nee (c :: hs) || containsChars hs nee

/-- Case-insensitive substring test,
strings.Contains(strings.ToLower(hay), strings.ToLower(nee)). -/
def strContainsLower (hay nee : String) : Bool :=
  containsChars (lowerChars hay) (lowerChars nee)

/-- The predicate each worker of taskService.SearchTasks applies to a task
(part_009): with a non-empty query, match when the lower-cased query occurs
in the lower-cased task name, or else in the lower-cased description when one
is present; with an empty query every task matches. -/
def taskMatches (query : String) (t : Task) : Bool :=
  if query ≠ "" then
    if strContainsLower t.taskName query then true
    else
      match t.descriptionText with
      | some d => strContainsLower d query
      | none => false
  else true

/-- The filters argument of taskService.SearchTasks, a Go
map[string]interface-typed bag of optional equality filters (category,
priority, status); the service forwards it to the audit log but never
consults it while filtering. -/
structure SearchFilters where
  category : Option String
  priority : Option Int
  status : Option Bool
deriving DecidableEq, Repr

/-- Input slice handed to worker i of the pool: the feeder goroutine sends
every task into the shared unbuffered channel, and a schedule (here a label
attached to each task) decides which worker receives it; each worker sees its
own tasks in feed order. -/
def workerInput (pairs : List (Task × Nat)) (i : Nat) : List Task :=
  (pairs.filter (fun p => p.2 == i)).map Prod.fst

/-- Sequence of matches worker i sends to the result channel, in the order it
processes its input. -/
def workerOutput (query : String) (pairs : List (Task × Nat)) (i : Nat) : List Task :=
  (workerInput pairs i).filter (taskMatches query)

/-- Fan-in of the collector goroutine: out is an interleaving of the worker
output sequences, one element consumed per step from whichever worker the
scheduler lets send next, order within one worker preserved. -/
inductive Interleaving : List (List Task) → List Task → Prop where
  | done (ls : List (List Task)) (h : ∀ l ∈ ls, l = []) : Interleaving ls []
  | step (ls : List (List Task)) (i : Nat) (hi : i < ls.length) (x : Task) (xs : List Task)
      (out : List Task) (hget : ls.get ⟨i, hi⟩ = x :: xs)
      (htail : Interleaving (ls.set i xs) out) : Interleaving ls (x :: out)

/-- The sequence of matches the collector goroutine of
taskService.SearchTasks receives, in one execution of the worker pool on the
task snapshot, under worker count w, a task-to-worker assignment lab (one
label per task), and some interleaving of the workers' sends.  In every
execution in which the call returns, this sequence is complete: each worker
finishes all its result-channel sends (each one a rendezvous with the
collector, the sole receiver) before sending its done signal, and the wait
loop returns only after all done signals.  The filters argument is carried
exactly as in the code: present in the call, absent from the filtering. -/
def SearchRun (tasks : List Task) (query : String) (filters : SearchFilters)
    (w : Nat) (lab : List Nat) (out : List Task) : Prop :=
  lab.length = tasks.length ∧ (∀ j ∈ lab, j < w) ∧
    Interleaving ((List.range w).map (workerOutput query (tasks.zip lab))) out

/-- The list a returning taskService.SearchTasks call can hand to its caller.
The collector appends the received matches to filteredTasks in receive
order, but the returning wait loop has no happens-before edge with those
appends (in a returning execution the collector consumed no done signal), so
the caller's unsynchronized read of filteredTasks can observe the
accumulated list with a trailing portion of the received matches still
missing: out followed by some dropped suffix equals the received
sequence. -/
def SearchReturn (tasks : List Task) (query : String) (filters : SearchFilters)
    (w : Nat) (lab : List Nat) (out : List Task) : Prop :=
  ∃ received dropped, SearchRun tasks query filters w lab received ∧
    received = out ++ dropped

/-- Worker-pool size hard-coded in taskService.SearchTasks
(numWorkers := 8). -/
def numWorkers : Nat := 8

/-- Accounting of the numWorkers completion signals each worker sends once on
the unbuffered doneChan of SearchTasks: every signal is received by exactly
one of the two competing receivers, the collector goroutine's select branch
or the final wait loop of the calling function. -/
structure DoneSignalSplit where
  toCollector : Nat
  toWaitLoop : Nat
deriving DecidableEq, Repr

/-- A split is an execution-consistent accounting when the two receivers
together consume exactly the numWorkers signals sent. -/
def DoneSignalSplit.valid (d : DoneSignalSplit) : Prop :=
  d.toCollector + d.toWaitLoop = numWorkers

/-- The collector goroutine reaches finished == numWorkers and closes the
result channel only by consuming numWorkers done signals. -/
def collectorCloses (d : DoneSignalSplit) : Prop :=
  d.toCollector = numWorkers

/-- The final wait loop of SearchTasks returns only after consuming
numWorkers done signals; otherwise the call blocks forever. -/
def waitLoopCompletes (d : DoneSignalSplit) : Prop :=
  d.toWaitLoop = numWorkers

/-- Equivalence of two stored timestamp lists up to pruning: from instant s
on, every Allow call prunes them to the same list.  Relates a swept registry
entry to its unswept original. -/
def PruneEquiv (s w : Int) (l1 l2 : List Int) : Prop :=
  ∀ now, s ≤ now → pruneOld (now - w) l1 = pruneOld (now - w) l2

/-- Sample registry state used to instantiate proved properties: limit 2,
window 10, every key holding timestamps 0 and 5. -/
def rlW : RateLimiter :=
  { limit := 2, window := 10, requests := fun _ => [0, 5] }

/-- Second sample registry state, agreeing with rlW on key "a" only. -/
def rl2W : RateLimiter :=
  { limit := 2, window := 10, requests := fun k => if k = "a" then [0, 5] else [99] }

/-- Multiset of a task list, used to compare collector outputs up to the
ordering the pipeline deliberately leaves unspecified. -/
def toMset (l : List Task) : Multiset Task :=
  (l : Multiset Task)

/-- Sample task whose name contains the query "abc" case-insensitively. -/
def tA : Task :=
  { id := 1, userID := 1, taskName := "xAbCy", descriptionText := none,
    category := none, priority := 0, isCompleted := false }

/-- Sample task whose description contains the query "abc". -/
def tB : Task :=
  { id := 2, userID := 1, taskName := "other", descriptionText := some "has abc inside",
    category := some "Work", priority := 3, isCompleted := false }

/-! Helper lemmas about the rate limiter. -/

theorem mem_pruneOld {cutoff t : Int} {ts : List Int} :
    t ∈ pruneOld cutoff ts ↔ t ∈ ts ∧ cutoff < t := by
  simp [pruneOld]

theorem Allow_eq (rl : RateLimiter) (now : Int) (key : String) :
    rl.Allow now key =
      if rl.limit ≤ inWindowCount rl now key then (false, rl)
      else (true, { rl with requests := fun k =>
        (if k = key then pruneOld (now - rl.window) (rl.requests key) ++ [now]
          else rl.requests k) }) :=
  rfl

theorem Allow_limit (rl : RateLimiter) (now : Int) (key : String) :
    (rl.Allow now key).2.limit = rl.limit := by
  rw [Allow_eq]
  split <;> rfl

theorem Allow_window (rl : RateLimiter) (now : Int) (key : String) :
    (rl.Allow now key).2.window = rl.window := by
  rw [Allow_eq]
  split <;> rfl

theorem pruneOld_idem (c : Int) (l : List Int) :
    pruneOld c (pruneOld c l) = pruneOld c l := by
  simp [pruneOld, List.filter_filter]

theorem pruneOld_append (c : Int) (l1 l2 : List Int) :
    pruneOld c (l1 ++ l2) = pruneOld c l1 ++ pruneOld c l2 :=
  List.filter_append _ _

theorem runAllow_cons (rl : RateLimiter) (key : String) (now : Int)
    (rest : List (String × Int)) :
    runAllow rl ((key, now) :: rest)
      = (rl.Allow now key).1 :: runAllow (rl.Allow now key).2 rest :=
  rfl

/-- C1: Allow(key) returns false exactly when the key's in-window count at
the instant of the call is at least the limit, and then the whole registry
state is unchanged; otherwise it returns true, the key's stored list becomes
its pruned list with the current instant appended, and the key's in-window
count grows by exactly one. -/
theorem allow_decision (rl : RateLimiter) (now : Int) (key : String)
    (hw : 0 < rl.window) :
    ((rl.Allow now key).1 = false ↔ rl.limit ≤ inWindowCount rl now key) ∧
    ((rl.Allow now key).1 = false → (rl.Allow now key).2 = rl) ∧
    ((rl.Allow now key).1 = true →
      (rl.Allow now key).2.requests key
          = pruneOld (now - rl.window) (rl.requests key) ++ [now] ∧
      inWindowCount (rl.Allow now key).2 now key = inWindowCount rl now key + 1) := by
  rw [Allow_eq]
  by_cases h : rl.limit ≤ inWindowCount rl now key
  · simp [h]
  · simp only [if_neg h]
    refine ⟨by simp [h], by simp, fun _ => ⟨by simp, ?_⟩⟩
    have hnow : pruneOld (now - rl.window) [now] = [now] := by
      simp [pruneOld]
      omega
    simp only [inWindowCount, if_true, pruneOld_append, pruneOld_idem, hnow,
      List.length_append, List.length_cons, List.length_nil]

/-- Witness for C1: instantiating the decision property on the sample state
rlW at instant 12 for key "a". -/
theorem allow_decision_witness :
    ((rlW.Allow 12 "a").1 = false ↔ rlW.limit ≤ inWindowCount rlW 12 "a") :=
  (allow_decision rlW 12 "a" (by decide)).1

/-- C4 counterexample: with window 10, a timestamp of age exactly the window
(t = 0 at now = 10) is pruned, not retained, and is not counted toward the
limit: with limit 1 and stored list [0], Allow at instant 10 admits. -/
theorem boundary_timestamp_dropped :
    pruneOld ((10 : Int) - 10) [0] = [] ∧
    (RateLimiter.Allow { limit := 1, window := 10, requests := fun _ => [0] } 10 "k").1
      = true := by
  exact ⟨by decide, by decide⟩

/-- C4 amended: the boundary is exclusive, not inclusive.  A timestamp t is
retained by the pruning step of an Allow call at instant now exactly when it
is strictly inside the window, now < t + window; it is pruned as soon as
now reaches or exceeds t + window, so a timestamp exactly window old is
already pruned. -/
theorem pruneOld_strict_boundary (now window t : Int) (ts : List Int) :
    t ∈ pruneOld (now - window) ts ↔ t ∈ ts ∧ now < t + window := by
  rw [mem_pruneOld]
  constructor
  · rintro ⟨h1, h2⟩
    exact ⟨h1, by omega⟩
  · rintro ⟨h1, h2⟩
    exact ⟨h1, by omega⟩

/-- C5: every timestamp retained by the pruning step of an Allow call at
instant now satisfies t ≥ now - window, and after an admitting Allow call the
key's whole stored list satisfies the same bound. -/
theorem retained_timestamps_in_window (rl : RateLimiter) (now : Int) (key : String)
    (hw : 0 ≤ rl.window) :
    (∀ t ∈ pruneOld (now - rl.window) (rl.requests key), now - rl.window ≤ t) ∧
    ((rl.Allow now key).1 = true →
      ∀ t ∈ (rl.Allow now key).2.requests key, now - rl.window ≤ t) := by
  constructor
  · intro t ht
    have := (mem_pruneOld.mp ht).2
    omega
  · intro hadm t ht
    rw [Allow_eq] at hadm ht
    by_cases h : rl.limit ≤ inWindowCount rl now key
    · simp [h] at hadm
    · simp only [if_neg h] at ht
      have ht' : t ∈ pruneOld (now - rl.window) (rl.requests key) ++ [now] := by
        simpa using ht
      rcases List.mem_append.mp ht' with h1 | h1
      · have := (mem_pruneOld.mp h1).2
        omega
      · simp at h1
        omega

/-- Witness for C5: on the sample state rlW at instant 12, the retained
timestamp 5 satisfies the window bound. -/
theorem retained_timestamps_in_window_witness :
    (12 : Int) - rlW.window ≤ 5 :=
  (retained_timestamps_in_window rlW 12 "a" (by decide)).1 5 (by decide)

/-- C6: an Allow call for key k leaves every other key's stored list
untouched, and its boolean result depends only on k's own stored list
together with the limit and the window, never on any other key's state. -/
theorem allow_key_isolation (rl rl2 : RateLimiter) (now : Int) (k k2 : String)
    (hne : k2 ≠ k) (hlim : rl.limit = rl2.limit) (hwin : rl.window = rl2.window)
    (hreq : rl.requests k = rl2.requests k) :
    (rl.Allow now k).2.requests k2 = rl.requests k2 ∧
    (rl.Allow now k).1 = (rl2.Allow now k).1 := by
  have hcount : inWindowCount rl now k = inWindowCount rl2 now k := by
    simp only [inWindowCount, hwin, hreq]
  constructor
  · rw [Allow_eq]
    by_cases h : rl.limit ≤ inWindowCount rl now k
    · simp [h]
    · simp only [if_neg h]
      simp [if_neg hne]
  · rw [Allow_eq, Allow_eq, ← hlim, ← hcount]
    by_cases h : rl.limit ≤ inWindowCount rl now k
    · simp [h]
    · simp [h]

/-- Witness for C6: on the sample states rlW and rl2W, which agree on key "a"
only, an Allow call for "a" leaves key "b" untouched. -/
theorem allow_key_isolation_witness :
    (rlW.Allow 12 "a").2.requests "b" = rlW.requests "b" :=
  (allow_key_isolation rlW rl2W 12 "a" "b" (by decide) rfl rfl (by decide)).1

/-- C7: with limit 3 and window 1 second (1000000000 ns), four back-to-back
Allow calls for "clientA" (at 0 ms, 1 ms, 2 ms, 3 ms) yield true, true,
true, false, and a fifth call after 1.1 s (at 1100000000 ns) yields true. -/
theorem allow_scenario_a :
    runAllow { limit := 3, window := 1000000000, requests := fun _ => [] }
      [("clientA", 0), ("clientA", 1000000), ("clientA", 2000000), ("clientA", 3000000),
        ("clientA", 1100000000)]
      = [true, true, true, false, true] := by
  decide

theorem pruneEquiv_cleanup (s w : Int) (hw : 0 ≤ w) (l : List Int) :
    PruneEquiv s w (pruneOld (s - w * 2) l) l := by
  intro now hn
  unfold pruneOld
  rw [List.filter_filter]
  apply List.filter_congr
  intro a _
  by_cases h : now - w < a
  · have h2 : s - w * 2 < a := by omega
    simp [h, h2]
  · simp [h]

theorem runAllow_pruneEquiv (s : Int) :
    ∀ (calls : List (String × Int)) (rl1 rl2 : RateLimiter),
      rl1.limit = rl2.limit → rl1.window = rl2.window →
      (∀ k, PruneEquiv s rl1.window (rl1.requests k) (rl2.requests k)) →
      (∀ c ∈ calls, s ≤ c.2) →
      runAllow rl1 calls = runAllow rl2 calls := by
  intro calls
  induction calls with
  | nil => intro rl1 rl2 _ _ _ _; rfl
  | cons c rest ih =>
    intro rl1 rl2 hlim hwin hR hcalls
    obtain ⟨key, now⟩ := c
    have hs : s ≤ now := hcalls (key, now) (List.mem_cons_self _ _)
    have hrest : ∀ c ∈ rest, s ≤ c.2 := fun c hc => hcalls c (List.mem_cons_of_mem _ hc)
    have hval : pruneOld (now - rl1.window) (rl1.requests key)
        = pruneOld (now - rl1.window) (rl2.requests key) := hR key now hs
    have hcount : inWindowCount rl1 now key = inWindowCount rl2 now key := by
      simp only [inWindowCount, ← hwin, hval]
    rw [runAllow_cons, runAllow_cons]
    by_cases h : rl1.limit ≤ inWindowCount rl1 now key
    · have h2 : rl2.limit ≤ inWindowCount rl2 now key := by rw [← hlim, ← hcount]; exact h
      rw [Allow_eq rl1, Allow_eq rl2, if_pos h, if_pos h2]
      show false :: runAllow rl1 rest = false :: runAllow rl2 rest
      rw [ih rl1 rl2 hlim hwin hR hrest]
    · have h2 : ¬ rl2.limit ≤ inWindowCount rl2 now key := by rw [← hlim, ← hcount]; exact h
      rw [Allow_eq rl1, Allow_eq rl2, if_neg h, if_neg h2]
      congr 1
      apply ih
      · exact hlim
      · exact hwin
      · intro k
        have e1 : ({ rl1 with requests := fun k =>
            (if k = key then pruneOld (now - rl1.window) (rl1.requests key) ++ [now]
              else rl1.requests k) } : RateLimiter).requests k
            = if k = key then pruneOld (now - rl1.window) (rl1.requests key) ++ [now]
              else rl1.requests k := rfl
        have e2 : ({ rl2 with requests := fun k =>
            (if k = key then pruneOld (now - rl2.window) (rl2.requests key) ++ [now]
              else rl2.requests k) } : RateLimiter).requests k
            = if k = key then pruneOld (now - rl2.window) (rl2.requests key) ++ [now]
              else rl2.requests k := rfl
        show PruneEquiv s rl1.window _ _
        rw [e1, e2]
        by_cases hk : k = key
        · rw [if_pos hk, if_pos hk]
          rw [← hwin, ← hval]
          intro n hn
          rfl
        · rw [if_neg hk, if_neg hk]
          exact hR k
      · exact hrest

/-- C8: one sweep pass at instant s empties (deletes) exactly the keys none
of whose timestamps is newer than s - 2*window, and it is transparent to
Allow: any sequence of subsequent Allow calls (at instants at least s)
returns the same booleans over the swept registry as over the unswept one. -/
theorem cleanup_sweep (rl : RateLimiter) (s : Int) (calls : List (String × Int))
    (hw : 0 ≤ rl.window) (hcalls : ∀ c ∈ calls, s ≤ c.2) :
    (∀ k, (rl.cleanupPass s).requests k = [] ↔
      ∀ t ∈ rl.requests k, t ≤ s - rl.window * 2) ∧
    runAllow (rl.cleanupPass s) calls = runAllow rl calls := by
  constructor
  · intro k
    show pruneOld (s - rl.window * 2) (rl.requests k) = [] ↔ _
    unfold pruneOld
    rw [List.filter_eq_nil_iff]
    constructor
    · intro hall t ht
      have := hall t ht
      simp at this
      omega
    · intro hall t ht
      have := hall t ht
      simp
      omega
  · apply runAllow_pruneEquiv s calls
    · rfl
    · rfl
    · intro k
      show PruneEquiv s rl.window (pruneOld (s - rl.window * 2) (rl.requests k)) (rl.requests k)
      exact pruneEquiv_cleanup s rl.window hw (rl.requests k)
    · exact hcalls

/-- Witness for C8: on the sample state rlW, a sweep at instant 30 deletes
key "k" (both stored timestamps are older than 30 - 2*10), and two Allow
calls at instants 30 and 35 decide identically over the swept and the
unswept registry. -/
theorem cleanup_sweep_witness :
    ((rlW.cleanupPass 30).requests "k" = [] ↔
      ∀ t ∈ rlW.requests "k", t ≤ 30 - rlW.window * 2) ∧
    runAllow (rlW.cleanupPass 30) [("k", 30), ("k", 35)]
      = runAllow rlW [("k", 30), ("k", 35)] :=
  ⟨(cleanup_sweep rlW 30 [("k", 30), ("k", 35)] (by decide) (by decide)).1 "k",
    (cleanup_sweep rlW 30 [("k", 30), ("k", 35)] (by decide) (by decide)).2⟩

/-- C9 counterexample: with a configured window of 2 minutes
(120000000000 ns), the deny response still carries retry_after 60, not the
window duration of 120 seconds. -/
theorem deny_retry_not_window :
    ¬ (denyResponse (120 * 1000000000)).retryAfterBody
        = durationSeconds (120 * 1000000000) := by
  decide

/-- C9 amended: whenever admission is denied the middleware responds with
status 429 (too many requests) and a retry-after of 60 seconds, hard-coded
independently of the configured window; this value coincides with the window
expressed in seconds only for the deployed configuration of one minute
(RateLimitMiddleware(200, time.Minute) at the router). -/
theorem deny_response_fixed (window : Int) :
    (denyResponse window).status = 429 ∧
    (denyResponse window).retryAfterBody = 60 ∧
    (denyResponse window).retryAfterHeader = "60" ∧
    (denyResponse (60 * 1000000000)).retryAfterBody
      = durationSeconds (60 * 1000000000) := by
  refine ⟨rfl, rfl, rfl, by decide⟩

/-- C3 (bug evidence): the worker pool of SearchTasks sends exactly
numWorkers completion signals on the unbuffered doneChan, but two loops
compete to receive them: the collector goroutine needs numWorkers receives
to close the result channel, and the final wait loop of SearchTasks needs
numWorkers receives to let the call return.  No execution-consistent
accounting satisfies both, and as soon as the collector receives even one
signal the wait loop can never complete, so the call blocks forever. -/
theorem searchTasks_done_signals_insufficient (d : DoneSignalSplit) (hv : d.valid) :
    ¬ (collectorCloses d ∧ waitLoopCompletes d) ∧
    (1 ≤ d.toCollector → ¬ waitLoopCompletes d) := by
  unfold DoneSignalSplit.valid at hv
  unfold collectorCloses waitLoopCompletes numWorkers at *
  omega

/-- Witness for C3: the accounting in which the collector receives one done
signal and the wait loop the other seven is execution-consistent, and there
the wait loop never completes. -/
theorem searchTasks_done_signals_insufficient_witness :
    DoneSignalSplit.valid ⟨1, 7⟩ ∧ ¬ waitLoopCompletes ⟨1, 7⟩ :=
  ⟨rfl, (searchTasks_done_signals_insufficient ⟨1, 7⟩ rfl).2 (by decide)⟩

/-! Helper lemmas about the worker pool of SearchTasks. -/

theorem toMset_nil : toMset [] = 0 :=
  rfl

theorem toMset_cons (x : Task) (l : List Task) : toMset (x :: l) = x ::ₘ toMset l :=
  rfl

theorem sum_map_set_cons :
    ∀ (ls : List (List Task)) (i : Nat) (hi : i < ls.length) (x : Task) (xs : List Task),
      ls.get ⟨i, hi⟩ = x :: xs →
      x ::ₘ ((ls.set i xs).map toMset).sum = (ls.map toMset).sum := by
  intro ls
  induction ls with
  | nil =>
    intro i hi
    exact absurd hi (by simp)
  | cons l rest ih =>
    intro i hi x xs hget
    cases i with
    | zero =>
      have hl : l = x :: xs := hget
      subst hl
      simp only [List.set_cons_zero, List.map_cons, List.sum_cons]
      rw [toMset_cons, Multiset.cons_add]
    | succ n =>
      have hget' : rest.get ⟨n, by simpa using hi⟩ = x :: xs := hget
      simp only [List.set_cons_succ, List.map_cons, List.sum_cons]
      rw [← ih n _ x xs hget']
      rw [Multiset.add_cons]

theorem interleave_multiset {ls : List (List Task)} {out : List Task}
    (h : Interleaving ls out) :
    toMset out = (ls.map toMset).sum := by
  induction h with
  | done ls hnil =>
    rw [toMset_nil]
    symm
    apply List.sum_eq_zero
    intro x hx
    obtain ⟨l, hl, rfl⟩ := List.mem_map.mp hx
    rw [hnil l hl]
    rfl
  | step ls i hi x xs out hget htail ih =>
    rw [toMset_cons, ih]
    exact sum_map_set_cons ls i hi x xs hget

theorem workerOutput_cons (query : String) (p : Task × Nat) (pairs : List (Task × Nat))
    (i : Nat) :
    workerOutput query (p :: pairs) i
      = if p.2 = i ∧ taskMatches query p.1 = true then p.1 :: workerOutput query pairs i
        else workerOutput query pairs i := by
  unfold workerOutput workerInput
  by_cases h1 : p.2 = i
  · by_cases h2 : taskMatches query p.1 = true
    · simp [List.filter_cons, h1, h2]
    · simp [List.filter_cons, h1, h2]
  · simp [List.filter_cons, h1]

theorem sum_map_ite_insert :
    ∀ (L : List Nat) (j : Nat) (a : Task) (M : Nat → Multiset Task),
      L.Nodup → j ∈ L →
      (L.map (fun i => if j = i then a ::ₘ M i else M i)).sum = a ::ₘ (L.map M).sum := by
  intro L
  induction L with
  | nil =>
    intro j a M _ hj
    exact absurd hj (by simp)
  | cons k rest ih =>
    intro j a M hnd hj
    rcases List.mem_cons.mp hj with h | h
    · subst h
      have hnotin : j ∉ rest := (List.nodup_cons.mp hnd).1
      simp only [List.map_cons, List.sum_cons, eq_self_iff_true, if_true]
      have hmap : rest.map (fun i => if j = i then a ::ₘ M i else M i) = rest.map M := by
        apply List.map_congr_left
        intro b hb
        rw [if_neg]
        intro hjb
        exact hnotin (hjb ▸ hb)
      rw [hmap, Multiset.cons_add]
    · have hk : j ≠ k := by
        rintro rfl
        exact (List.nodup_cons.mp hnd).1 h
      simp only [List.map_cons, List.sum_cons, if_neg hk]
      rw [ih j a M (List.nodup_cons.mp hnd).2 h, Multiset.add_cons]

theorem workers_sum (query : String) (w : Nat) :
    ∀ (pairs : List (Task × Nat)), (∀ p ∈ pairs, p.2 < w) →
      ((List.range w).map (fun i => toMset (workerOutput query pairs i))).sum
        = toMset ((pairs.map Prod.fst).filter (taskMatches query)) := by
  intro pairs
  induction pairs with
  | nil =>
    intro _
    simp only [List.map_nil, List.filter_nil, toMset_nil]
    apply List.sum_eq_zero
    intro x hx
    obtain ⟨i, _, rfl⟩ := List.mem_map.mp hx
    rfl
  | cons p rest ih =>
    intro hlt
    have hpw : p.2 < w := hlt p (List.mem_cons_self _ _)
    have hrest : ∀ q ∈ rest, q.2 < w := fun q hq => hlt q (List.mem_cons_of_mem _ hq)
    by_cases hm : taskMatches query p.1 = true
    · have hfun : ∀ i ∈ List.range w,
          toMset (workerOutput query (p :: rest) i)
            = if p.2 = i then p.1 ::ₘ toMset (workerOutput query rest i)
              else toMset (workerOutput query rest i) := by
        intro i _
        rw [workerOutput_cons]
        by_cases h : p.2 = i
        · rw [if_pos ⟨h, hm⟩, if_pos h, toMset_cons]
        · rw [if_neg (fun hc => h hc.1), if_neg h]
      rw [List.map_congr_left hfun]
      rw [sum_map_ite_insert (List.range w) p.2 p.1 _ (List.nodup_range w)
        (List.mem_range.mpr hpw)]
      rw [ih hrest]
      simp only [List.map_cons, List.filter_cons, hm, if_true]
      rw [toMset_cons]
    · have hfun : ∀ i ∈ List.range w,
          toMset (workerOutput query (p :: rest) i)
            = toMset (workerOutput query rest i) := by
        intro i _
        rw [workerOutput_cons, if_neg (fun hc => hm hc.2)]
      rw [List.map_congr_left hfun, ih hrest]
      simp only [List.map_cons, List.filter_cons, hm]
      simp

theorem searchRun_mem (tasks : List Task) (query : String) (filters : SearchFilters)
    (w : Nat) (lab : List Nat) (out : List Task)
    (h : SearchRun tasks query filters w lab out) :
    ∀ x, x ∈ out ↔ x ∈ tasks.filter (taskMatches query) := by
  obtain ⟨hlen, hlt, hint⟩ := h
  have hzip : ∀ p ∈ tasks.zip lab, p.2 < w := by
    intro p hp
    exact hlt p.2 (List.of_mem_zip hp).2
  have h1 : toMset out
      = toMset (((tasks.zip lab).map Prod.fst).filter (taskMatches query)) := by
    rw [interleave_multiset hint, ← workers_sum query w (tasks.zip lab) hzip]
    rw [List.map_map]
    rfl
  have h2 : (tasks.zip lab).map Prod.fst = tasks :=
    List.map_fst_zip tasks lab (le_of_eq hlen.symm)
  rw [h2] at h1
  have hperm : out.Perm (tasks.filter (taskMatches query)) := Multiset.coe_eq_coe.mp h1
  intro x
  exact hperm.mem_iff

/-- C2 (bug evidence): a returning SearchTasks execution can hand back a
truncated, even empty, result.  On the snapshot [tA] with query "abc" the
sequential filter is [tA] and the match is received by the collector, yet
the empty list is a possible return (the collector is preempted between the
receive and the append while every done signal goes to the wait loop), so
the returned set does not equal the filter set and is schedule-dependent. -/
theorem searchTasks_result_can_truncate :
    SearchReturn [tA] "abc" ⟨none, none, none⟩ 1 [0] [] ∧
    List.filter (taskMatches "abc") [tA] = [tA] ∧
    ¬ (tA ∈ ([] : List Task) ↔ tA ∈ List.filter (taskMatches "abc") [tA]) :=
  ⟨⟨[tA], [tA],
      ⟨rfl, by decide,
        Interleaving.step _ 0 (by decide) tA [] _ (by decide)
          (Interleaving.done _ (by decide))⟩, rfl⟩,
    by decide, by decide⟩

/-- C10 counterexample: two SearchTasks calls with the same snapshot [tA]
and query "abc" but different filter maps can return sets with different
membership — one schedule returns the full [tA], another returns the empty
list — so "the two calls return the same set of tasks" fails as stated. -/
theorem searchTasks_filters_schedule_dependent :
    SearchReturn [tA] "abc" ⟨some "Work", none, none⟩ 1 [0] [tA] ∧
    SearchReturn [tA] "abc" ⟨none, some 3, some true⟩ 1 [0] [] ∧
    ¬ (tA ∈ ([tA] : List Task) ↔ tA ∈ ([] : List Task)) :=
  ⟨⟨[tA], [],
      ⟨rfl, by decide,
        Interleaving.step _ 0 (by decide) tA [] _ (by decide)
          (Interleaving.done _ (by decide))⟩, rfl⟩,
    ⟨[tA], [tA],
      ⟨rfl, by decide,
        Interleaving.step _ 0 (by decide) tA [] _ (by decide)
          (Interleaving.done _ (by decide))⟩, rfl⟩,
    by decide⟩

/-- C10 amended: the filters argument never influences which results are
possible.  Any list obtainable as a SearchTasks return under one filter map
is obtainable under any other with the same snapshot, query, worker count
and schedule (the filters reach only the audit log), and every returned
list contains only tasks matching the free-text query; run-to-run set
equality fails only because the unsynchronized return makes the result
schedule-dependent. -/
theorem searchTasks_filters_outcome_invariant (tasks : List Task) (query : String)
    (f1 f2 : SearchFilters) (w : Nat) (lab : List Nat) (out : List Task)
    (h : SearchReturn tasks query f1 w lab out) :
    SearchReturn tasks query f2 w lab out ∧
    ∀ x ∈ out, x ∈ tasks.filter (taskMatches query) := by
  obtain ⟨received, dropped, hrun, heq⟩ := h
  constructor
  · exact ⟨received, dropped, hrun, heq⟩
  · intro x hx
    have hxr : x ∈ received := by
      rw [heq]
      exact List.mem_append_left dropped hx
    exact (searchRun_mem tasks query f1 w lab received hrun x).mp hxr

/-- Witness for C10: the full return [tA] possible under the category filter
is also possible under the priority/status filter. -/
theorem searchTasks_filters_outcome_invariant_witness :
    SearchReturn [tA] "abc" ⟨none, some 3, some true⟩ 1 [0] [tA] :=
  (searchTasks_filters_outcome_invariant [tA] "abc" ⟨some "Work", none, none⟩
    ⟨none, some 3, some true⟩ 1 [0] [tA]
    ⟨[tA], [],
      ⟨rfl, by decide,
        Interleaving.step _ 0 (by decide) tA [] _ (by decide)
          (Interleaving.done _ (by decide))⟩, rfl⟩).1

end TodoSpec
